import Mathlib

/-!
Verification of the `kt` HTTP protocol adapter (`src/kt/http.py`).

The development shallowly embeds the wire encoding/decoding layer and the
request/response semantics of `HttpProtocol`.  Byte strings are modelled as
`List Nat` (each element a byte value `< 256`); Python `str` values that can
also be `bytes` are modelled by the sum type `PyStr`; dictionaries are
modelled as insertion-ordered association lists built with `dinsert`, which
mirrors Python dict assignment (overwrite in place, append when fresh).

External collaborators are embedded as follows:

* `base64.b64encode` / `base64.b64decode` (standard library) are implemented
  directly (`b64encode`, `b64decode`); `b64decode` is modelled on valid
  base64 input, which is the only way the adapter produces it in the
  properties proved here.
* `urllib.parse.unquote_to_bytes`: the source builds
  `unquote_b = partial(unquote_to_bytes, safe=...)` with an empty-string
  `safe` keyword, but `unquote_to_bytes`
  accepts no `safe` keyword, so every call of `unquote_b` raises
  `TypeError` before any unescaping happens.  The selected `colenc=U`
  decoder is therefore embedded as the marker `ColDec.urlBroken` whose
  application yields `PyErr.typeError`.
* the HTTP session (`requests`) is a transport parameter
  `tr : String → Bytes → HttpResp` giving the server response for a URL and
  request body.
* `kt._binary.encode` / `kt._binary.decode` and the value codec
  (`client._encode_value` / `client._decode_value`) are not under `src/`;
  they are modelled from the spec (see `pyEncode`, `kt_decode`, and the
  codec parameters `ev` / `dv` of the operations).
-/

set_option maxRecDepth 20000

namespace Kt

/-- A byte string: list of byte values. -/
abbrev Bytes := List Nat

/-! ## Base64 (model of Python `base64.b64encode` / `b64decode`) -/

/-- Character of the standard base64 alphabet at index `i` (as a byte). -/
def b64chr (i : Nat) : Nat :=
  if i < 26 then 65 + i
  else if i < 52 then 97 + (i - 26)
  else if i < 62 then 48 + (i - 52)
  else if i = 62 then 43 else 47

/-- Index of a base64 alphabet byte. -/
def b64idx (c : Nat) : Nat :=
  if 65 ≤ c ∧ c ≤ 90 then c - 65
  else if 97 ≤ c ∧ c ≤ 122 then c - 97 + 26
  else if 48 ≤ c ∧ c ≤ 57 then c - 48 + 52
  else if c = 43 then 62
  else if c = 47 then 63 else 0

/-- Model of `base64.b64encode`: groups of three bytes become four alphabet
bytes, with `=` (61) padding for a trailing group of one or two bytes. -/
def b64encode : Bytes → Bytes
  | [] => []
  | [a] => [b64chr (a / 4), b64chr (a % 4 * 16), 61, 61]
  | [a, b] => [b64chr (a / 4), b64chr (a % 4 * 16 + b / 16), b64chr (b % 16 * 4), 61]
  | a :: b :: c :: rest =>
    b64chr (a / 4) :: b64chr (a % 4 * 16 + b / 16) :: b64chr (b % 16 * 4 + c / 64) ::
      b64chr (c % 64) :: b64encode rest

/-- Model of `base64.b64decode` on well-formed base64 input (the round-trip
properties of the adapter only apply it to `b64encode` output). -/
def b64decode : Bytes → Bytes
  | a :: b :: c :: d :: rest =>
    if c = 61 then [b64idx a * 4 + b64idx b / 16]
    else if d = 61 then
      [b64idx a * 4 + b64idx b / 16, b64idx b % 16 * 16 + b64idx c / 4]
    else
      (b64idx a * 4 + b64idx b / 16) :: (b64idx b % 16 * 16 + b64idx c / 4) ::
        (b64idx c % 4 * 64 + b64idx d) :: b64decode rest
  | _ => []

theorem b64idx_b64chr : ∀ i, i < 64 → b64idx (b64chr i) = i := by decide

theorem b64chr_bounds (i : Nat) : 43 ≤ b64chr i ∧ b64chr i ≤ 122 ∧ b64chr i ≠ 61 := by
  unfold b64chr
  split <;> [skip; split] <;> [omega; skip; split] <;> [omega; skip; split] <;> omega

theorem b64decode_b64encode :
    ∀ bs : Bytes, (∀ b ∈ bs, b < 256) → b64decode (b64encode bs) = bs := by
  intro bs
  induction bs using b64encode.induct with
  | case1 => intro _; simp [b64encode, b64decode]
  | case2 a =>
    intro h
    have ha : a < 256 := h a (by simp)
    simp only [b64encode, b64decode]
    rw [if_pos trivial]
    rw [b64idx_b64chr _ (by omega), b64idx_b64chr _ (by omega)]
    have : a / 4 * 4 + a % 4 * 16 / 16 = a := by omega
    rw [this]
  | case3 a b =>
    intro h
    have ha : a < 256 := h a (by simp)
    have hb : b < 256 := h b (by simp)
    simp only [b64encode, b64decode]
    rw [if_neg (b64chr_bounds (b % 16 * 4)).2.2, if_pos trivial]
    rw [b64idx_b64chr _ (by omega), b64idx_b64chr _ (by omega),
      b64idx_b64chr _ (by omega)]
    have h1 : a / 4 * 4 + (a % 4 * 16 + b / 16) / 16 = a := by omega
    have h2 : (a % 4 * 16 + b / 16) % 16 * 16 + b % 16 * 4 / 4 = b := by omega
    rw [h1, h2]
  | case4 a b c rest ih =>
    intro h
    have ha : a < 256 := h a (by simp)
    have hb : b < 256 := h b (by simp)
    have hc : c < 256 := h c (by simp)
    simp only [b64encode, b64decode]
    rw [if_neg (b64chr_bounds (b % 16 * 4 + c / 64)).2.2,
      if_neg (b64chr_bounds (c % 64)).2.2]
    rw [b64idx_b64chr _ (by omega), b64idx_b64chr _ (by omega),
      b64idx_b64chr _ (by omega), b64idx_b64chr _ (by omega)]
    have h1 : a / 4 * 4 + (a % 4 * 16 + b / 16) / 16 = a := by omega
    have h2 : (a % 4 * 16 + b / 16) % 16 * 16 + (b % 16 * 4 + c / 64) / 4 = b := by omega
    have h3 : (b % 16 * 4 + c / 64) % 4 * 64 + c % 64 = c := by omega
    rw [h1, h2, h3]
    rw [ih (fun x hx => h x (by simp [hx]))]

/-- Every byte of `b64encode` output is an alphabet byte or `=` (61); in
particular it is never a tab (9) or a newline (10). -/
theorem b64encode_mem_ge (bs : Bytes) : ∀ c ∈ b64encode bs, 43 ≤ c := by
  induction bs using b64encode.induct with
  | case1 => intro c hc; simp [b64encode] at hc
  | case2 a =>
    intro c hc
    simp only [b64encode, List.mem_cons, List.not_mem_nil, or_false] at hc
    rcases hc with rfl | rfl | rfl | rfl <;>
      first | exact (b64chr_bounds _).1 | omega
  | case3 a b =>
    intro c hc
    simp only [b64encode, List.mem_cons, List.not_mem_nil, or_false] at hc
    rcases hc with rfl | rfl | rfl | rfl <;>
      first | exact (b64chr_bounds _).1 | omega
  | case4 a b c rest ih =>
    intro x hx
    simp only [b64encode, List.mem_cons] at hx
    rcases hx with rfl | rfl | rfl | rfl | hx <;>
      first | exact (b64chr_bounds _).1 | exact ih x hx

theorem b64encode_no_tab (bs : Bytes) : 9 ∉ b64encode bs := by
  intro h
  have := b64encode_mem_ge bs 9 h
  omega

theorem b64encode_no_newline (bs : Bytes) : 10 ∉ b64encode bs := by
  intro h
  have := b64encode_mem_ge bs 10 h
  omega

/-! ## Byte-string splitting and joining

`joinSep` models `sep.join(list_of_bytes)`, `splitByte` models
`bytes.split(sep)` (note that splitting the empty byte string yields a
singleton list holding the empty byte string), and `splitFirst`
models `bytes.split(sep, 1)` followed by the two-element unpacking in
`_decode_response` (`none` when the separator is absent, in which case the
Python unpacking raises `ValueError`). -/

def joinSep (sep : Nat) : List Bytes → Bytes
  | [] => []
  | [r] => r
  | r :: rs => r ++ sep :: joinSep sep rs

/-- Prepend a byte to the first group of a split result. -/
def consHead (c : Nat) : List Bytes → List Bytes
  | [] => [[c]]
  | g :: gs => (c :: g) :: gs

def splitByte (sep : Nat) : Bytes → List Bytes
  | [] => [[]]
  | c :: rest =>
    if c = sep then [] :: splitByte sep rest
    else consHead c (splitByte sep rest)

/-- Prepend a byte to the first component of a first-separator split. -/
def consFst (c : Nat) : Option (Bytes × Bytes) → Option (Bytes × Bytes)
  | none => none
  | some (a, b) => some (c :: a, b)

def splitFirst (sep : Nat) : Bytes → Option (Bytes × Bytes)
  | [] => none
  | c :: rest =>
    if c = sep then some ([], rest)
    else consFst c (splitFirst sep rest)

theorem splitByte_cons (sep c : Nat) (l : Bytes) :
    splitByte sep (c :: l) =
      if c = sep then [] :: splitByte sep l else consHead c (splitByte sep l) := rfl

theorem splitFirst_cons (sep c : Nat) (l : Bytes) :
    splitFirst sep (c :: l) =
      if c = sep then some ([], l) else consFst c (splitFirst sep l) := rfl

theorem splitByte_no_sep (sep : Nat) :
    ∀ r : Bytes, sep ∉ r → splitByte sep r = [r] := by
  intro r
  induction r with
  | nil => intro _; rfl
  | cons c rest ih =>
    intro h
    have hc : c ≠ sep := fun e => h (by simp [e])
    simp only [splitByte, ih (fun hm => h (by simp [hm])), if_neg hc, consHead]

theorem splitByte_append_cons (sep : Nat) (t : Bytes) :
    ∀ r : Bytes, sep ∉ r → splitByte sep (r ++ sep :: t) = r :: splitByte sep t := by
  intro r
  induction r with
  | nil => intro _; simp [splitByte]
  | cons c rest ih =>
    intro h
    have hc : c ≠ sep := fun e => h (by simp [e])
    have h2 := ih (fun hm => h (by simp [hm]))
    show splitByte sep (c :: (rest ++ sep :: t)) = (c :: rest) :: splitByte sep t
    rw [splitByte_cons, if_neg hc, h2]
    rfl

theorem splitByte_joinSep (sep : Nat) :
    ∀ rs : List Bytes, rs ≠ [] → (∀ r ∈ rs, sep ∉ r) →
      splitByte sep (joinSep sep rs) = rs := by
  intro rs
  induction rs with
  | nil => intro h; exact absurd rfl h
  | cons r rest ih =>
    intro _ hmem
    match rest, ih with
    | [], _ => exact splitByte_no_sep sep r (hmem r (by simp))
    | q :: rs2, ih =>
      have : joinSep sep (r :: q :: rs2) = r ++ sep :: joinSep sep (q :: rs2) := rfl
      rw [this, splitByte_append_cons sep _ r (hmem r (by simp))]
      rw [ih (by simp) (fun x hx => hmem x (by simp [hx]))]

theorem splitFirst_append (sep : Nat) (t : Bytes) :
    ∀ r : Bytes, sep ∉ r → splitFirst sep (r ++ sep :: t) = some (r, t) := by
  intro r
  induction r with
  | nil => intro _; simp [splitFirst]
  | cons c rest ih =>
    intro h
    have hc : c ≠ sep := fun e => h (by simp [e])
    have h2 := ih (fun hm => h (by simp [hm]))
    show splitFirst sep (c :: (rest ++ sep :: t)) = some (c :: rest, t)
    rw [splitFirst_cons, if_neg hc, h2]
    rfl

theorem splitFirst_none (sep : Nat) :
    ∀ r : Bytes, sep ∉ r → splitFirst sep r = none := by
  intro r
  induction r with
  | nil => intro _; rfl
  | cons c rest ih =>
    intro h
    have hc : c ≠ sep := fun e => h (by simp [e])
    have h2 := ih (fun hm => h (by simp [hm]))
    simp only [splitFirst, if_neg hc, h2, consFst]

theorem joinSep_eq_intercalate (sep : Nat) :
    ∀ rs : List Bytes, joinSep sep rs = List.intercalate [sep] rs := by
  intro rs
  induction rs with
  | nil => rfl
  | cons r rest ih =>
    match rest, ih with
    | [], _ => simp [joinSep, List.intercalate, List.intersperse]
    | q :: rs2, ih =>
      show r ++ sep :: joinSep sep (q :: rs2) = _
      rw [ih]
      simp [List.intercalate, List.intersperse]

/-! ## Python values and dictionaries -/

/-- A Python value that is either `str` or `bytes` (the public surface of
the adapter accepts both for keys and pre-encoded values). -/
inductive PyStr where
  | s : String → PyStr
  | b : Bytes → PyStr
deriving DecidableEq

/-- UTF-8 encoding of one character, as byte values.  Modelled from the
spec: the missing `kt._binary.encode` normalizes text to UTF-8 bytes. -/
def utf8Char (c : Char) : Bytes :=
  let n := c.toNat
  if n < 128 then [n]
  else if n < 2048 then [192 + n / 64, 128 + n % 64]
  else if n < 65536 then [224 + n / 4096, 128 + n / 64 % 64, 128 + n % 64]
  else [240 + n / 262144, 128 + n / 4096 % 64, 128 + n / 64 % 64, 128 + n % 64]

/-- UTF-8 bytes of a string.  Modelled from the spec: the missing
`kt._binary.encode` applied to text. -/
def strBytes (t : String) : Bytes :=
  t.data.foldr (fun c acc => utf8Char c ++ acc) []

/-- Modelled from the spec: the missing `kt._binary.encode`, which
"accepts text or bytes and normalizes to bytes before encoding"
(UTF-8 for text, identity for bytes). -/
def pyEncode : PyStr → Bytes
  | .s t => strBytes t
  | .b bs => bs

/-- Fuel-bounded UTF-8 decoding (permissive on invalid sequences). -/
def utf8DecAux : Nat → Bytes → List Char
  | 0, _ => []
  | _ + 1, [] => []
  | fuel + 1, a :: rest =>
    if a < 128 then Char.ofNat a :: utf8DecAux fuel rest
    else if a < 224 then
      match rest with
      | b :: rest2 => Char.ofNat ((a - 192) * 64 + (b - 128)) :: utf8DecAux fuel rest2
      | [] => []
    else if a < 240 then
      match rest with
      | b :: c :: rest2 =>
        Char.ofNat ((a - 224) * 4096 + (b - 128) * 64 + (c - 128)) :: utf8DecAux fuel rest2
      | _ => []
    else
      match rest with
      | b :: c :: d :: rest2 =>
        Char.ofNat ((a - 240) * 262144 + (b - 128) * 4096 + (c - 128) * 64 + (d - 128)) ::
          utf8DecAux fuel rest2
      | _ => []

/-- Modelled from the spec: the missing `kt._binary.decode`, which converts
wire bytes to text when key-to-text conversion is enabled. -/
def kt_decode (bs : Bytes) : String :=
  String.mk (utf8DecAux bs.length bs)

/-- A Python dictionary key as produced by `_decode_response`: raw bytes, or
text when the `decode_keys` flag of the client is set. -/
inductive PyKey where
  | bs : Bytes → PyKey
  | str : String → PyKey
deriving DecidableEq

/-- Key under which `_decode_response` stores a decoded field: text when
`decode_keys` is set, bytes otherwise. -/
def mkKey (dk : Bool) (k : Bytes) : PyKey :=
  if dk then .str (kt_decode k) else .bs k

/-- Python `key[1:]` on a `str` or `bytes` dictionary key. -/
def keyTail : PyKey → PyKey
  | .bs l => .bs l.tail
  | .str t => .str (t.drop 1)

/-- Python dict assignment `m[k] = v` on an insertion-ordered association
list: overwrite in place when the key exists, append otherwise. -/
def dinsert {α β : Type} [DecidableEq α] (m : List (α × β)) (k : α) (v : β) :
    List (α × β) :=
  if m.any (fun kv => decide (kv.1 = k)) then
    m.map (fun kv => if kv.1 = k then (k, v) else kv)
  else m ++ [(k, v)]

/-- Python `m.get(k)` on an association list. -/
def alookup {α β : Type} [DecidableEq α] : List (α × β) → α → Option β
  | [], _ => none
  | kv :: rest, k => if kv.1 = k then some kv.2 else alookup rest k

/-- Key removal, modelling the effect of Python `m.pop(k, default)` on the
dictionary (association lists built by `dinsert` have unique keys). -/
def aerase {α β : Type} [DecidableEq α] (m : List (α × β)) (k : α) :
    List (α × β) :=
  m.filter (fun kv => !decide (kv.1 = k))

theorem dinsert_fresh {α β : Type} [DecidableEq α] (m : List (α × β)) (k : α) (v : β)
    (h : k ∉ m.map Prod.fst) : dinsert m k v = m ++ [(k, v)] := by
  unfold dinsert
  rw [if_neg]
  simp only [List.any_eq_true, decide_eq_true_eq]
  rintro ⟨kv, hkv, he⟩
  exact h (List.mem_map.mpr ⟨kv, hkv, he⟩)

theorem foldl_dinsert_append {α β : Type} [DecidableEq α] :
    ∀ (pairs m : List (α × β)),
      (m.map Prod.fst ++ pairs.map Prod.fst).Nodup →
      pairs.foldl (fun a kv => dinsert a kv.1 kv.2) m = m ++ pairs := by
  intro pairs
  induction pairs with
  | nil => intro m _; simp
  | cons kv ps ih =>
    intro m hnd
    have hk : kv.1 ∉ m.map Prod.fst := by
      simp only [List.map_cons, List.nodup_append] at hnd
      intro hmem
      exact hnd.2.2 hmem (by simp)
    have step : dinsert m kv.1 kv.2 = m ++ [(kv.1, kv.2)] := dinsert_fresh m kv.1 kv.2 hk
    have hnd2 : ((m ++ [(kv.1, kv.2)]).map Prod.fst ++ ps.map Prod.fst).Nodup := by
      simp only [List.map_append, List.map_cons, List.map_nil] at hnd ⊢
      simpa [List.append_assoc] using hnd
    calc (kv :: ps).foldl (fun a kv => dinsert a kv.1 kv.2) m
        = ps.foldl (fun a kv => dinsert a kv.1 kv.2) (m ++ [(kv.1, kv.2)]) := by
          simp [List.foldl_cons, step]
      _ = m ++ [(kv.1, kv.2)] ++ ps := ih (m ++ [(kv.1, kv.2)]) hnd2
      _ = m ++ kv :: ps := by simp

/-! ## Wire frame codec (`HttpProtocol._encode_keys_values`,
`_encode_keys`, `decode_from_content_type`, `_decode_response`) -/

/-- `HttpProtocol._encode_keys_values`: each key/value pair becomes
`b64encode(encode(key)) TAB b64encode(encode(value))`, records joined by
newlines. -/
def encode_keys_values (data : List (PyStr × PyStr)) : Bytes :=
  joinSep 10 (data.map (fun kv => b64encode (pyEncode kv.1) ++ 9 :: b64encode (pyEncode kv.2)))

/-- `HttpProtocol._encode_keys`: each key becomes
`b64encode(UNDERSCORE + encode(key)) TAB` (95 is the underscore byte),
records joined by newlines. -/
def encode_keys (keys : List PyStr) : Bytes :=
  joinSep 10 (keys.map (fun k => b64encode (95 :: pyEncode k) ++ [9]))

/-- Python `str.endswith`. -/
def pyEndsWith (t suf : String) : Bool := List.isSuffixOf suf.data t.data

/-- The field decoder selected from a response content-type.

`b64` stands for `base64.b64decode`.  `urlBroken` stands for the
`unquote_b` of the source, a `partial` of `urllib.parse.unquote_to_bytes`
with an empty-string `safe` keyword:
`unquote_to_bytes` accepts no `safe` keyword argument, so calling the
selected decoder raises `TypeError` instead of URL-unescaping. -/
inductive ColDec where
  | b64 : ColDec
  | urlBroken : ColDec
deriving DecidableEq

/-- `decode_from_content_type`: base64 for a content-type ending in
`colenc=B`, the (broken) URL-unescaper for `colenc=U`, else no decoder. -/
def decode_from_content_type (ct : String) : Option ColDec :=
  if pyEndsWith ct "colenc=B" then some .b64
  else if pyEndsWith ct "colenc=U" then some .urlBroken
  else none

/-- Python exceptions reachable from the adapter. -/
inductive PyErr where
  | typeError : PyErr
  | keyError : PyErr
  | valueError : String → PyErr
  | protocolError : String → PyErr
deriving DecidableEq

instance instDecEqExcept {ε α : Type} [DecidableEq ε] [DecidableEq α] :
    DecidableEq (Except ε α) := fun x y =>
  match x, y with
  | .ok a, .ok b =>
    if h : a = b then .isTrue (by rw [h]) else .isFalse (by simp [h])
  | .error a, .error b =>
    if h : a = b then .isTrue (by rw [h]) else .isFalse (by simp [h])
  | .ok _, .error _ => .isFalse (by simp)
  | .error _, .ok _ => .isFalse (by simp)

/-- Applying the selected field decoder to one field. -/
def applyDec : ColDec → Bytes → Except PyErr Bytes
  | .b64, bs => .ok (b64decode bs)
  | .urlBroken, _ => .error .typeError

/-- The record loop of `_decode_response`: split each line on the first
tab, skip lines without a tab (the two-element unpacking raises
`ValueError`, which the source catches with `continue`), decode both
fields, optionally convert the key to text, and insert into the
accumulator dict. -/
def decodeLines (dk : Bool) (dec : Option ColDec) :
    List Bytes → List (PyKey × Bytes) → Except PyErr (List (PyKey × Bytes))
  | [], acc => .ok acc
  | line :: rest, acc =>
    match splitFirst 9 line with
    | none => decodeLines dk dec rest acc
    | some (k, v) =>
      match dec with
      | none => decodeLines dk dec rest (dinsert acc (mkKey dk k) v)
      | some d =>
        match applyDec d k with
        | .error e => .error e
        | .ok k2 =>
          match applyDec d v with
          | .error e => .error e
          | .ok v2 => decodeLines dk dec rest (dinsert acc (mkKey dk k2) v2)

/-- `HttpProtocol._decode_response`. -/
def decode_response (dk : Bool) (tsv : Bytes) (ct : String) :
    Except PyErr (List (PyKey × Bytes)) :=
  decodeLines dk (decode_from_content_type ct) (splitByte 10 tsv) []

/-! ## Request router (`HttpProtocol._post`, `HttpProtocol.request`) -/

/-- The `db` argument of a request: the explicit no-database marker
`False`, the Python default `None`, or a database selector (an index or
name, carried as its `%s` rendering). -/
inductive DbArg where
  | noDb : DbArg
  | pyNone : DbArg
  | sel : String → DbArg
deriving DecidableEq

/-- The Python percent-s rendering of the reachable `db` values. -/
def dbStr : DbArg → String
  | .noDb => "False"
  | .pyNone => "None"
  | .sel t => t

/-- The path manipulation of `HttpProtocol._post`:
`if db is not False`, the percent-s rendering of `db` is appended to the
path after a `?DB=` separator. -/
def post_path (path : String) (db : DbArg) : String :=
  if db = .noDb then path else path ++ "?DB=" ++ dbStr db

/-- A transport response: status code, body, content-type header. -/
structure HttpResp where
  status_code : Nat
  content : Bytes
  contentType : String
deriving DecidableEq

/-- The transport collaborator (`requests` session): maps the posted URL
and body to the server response. -/
def Transport := String → Bytes → HttpResp

/-- The `data` argument of `request`: a mapping, a key list, or raw
pre-built body bytes, dispatched by runtime type inspection. -/
inductive FrameData where
  | dict : List (PyStr × PyStr) → FrameData
  | list : List PyStr → FrameData
  | raw : Bytes → FrameData

/-- Body selection in `request`: mapping form, sequence form, or raw. -/
def encode_body : FrameData → Bytes
  | .dict d => encode_keys_values d
  | .list l => encode_keys l
  | .raw b => b

/-- `allowed_status is None or status not in allowed_status`, negated:
whether the status is in the declared acceptable set. -/
def statusAllowed (st : Nat) : Option (List Nat) → Bool
  | none => false
  | some l => l.contains st

/-- The status check and body decoding of `HttpProtocol.request`, applied
to the transport response `r`: fail with
a `ProtocolError` whose message is `protocol error [status]` when the
status is neither 200
nor acceptable, else decode the response body and return it with the
status. -/
def request_core (dk : Bool) (allowed : Option (List Nat)) (r : HttpResp) :
    Except PyErr (List (PyKey × Bytes) × Nat) :=
  if r.status_code ≠ 200 ∧ statusAllowed r.status_code allowed = false then
    .error (.protocolError ("protocol error [" ++ toString r.status_code ++ "]"))
  else
    match decode_response dk r.content r.contentType with
    | .error e => .error e
    | .ok frame => .ok (frame, r.status_code)

/-- `HttpProtocol.request` (with `self.path`/`_post` inlined): encode the
body, post it to `baseUrl ++ post_path path db`, and interpret the
response with `request_core`. -/
def request (dk : Bool) (tr : Transport) (baseUrl path : String) (data : FrameData)
    (db : DbArg) (allowed : Option (List Nat)) :
    Except PyErr (List (PyKey × Bytes) × Nat) :=
  request_core dk allowed (tr (baseUrl ++ post_path path db) (encode_body data))

theorem request_const_tr (dk : Bool) (r : HttpResp) (baseUrl path : String)
    (data : FrameData) (db : DbArg) (allowed : Option (List Nat)) :
    request dk (fun _ _ => r) baseUrl path data db allowed =
      request_core dk allowed r := rfl

theorem request_core_raise (dk : Bool) (allowed : Option (List Nat)) (r : HttpResp)
    (h200 : r.status_code ≠ 200) (hallow : statusAllowed r.status_code allowed = false) :
    request_core dk allowed r =
      .error (.protocolError ("protocol error [" ++ toString r.status_code ++ "]")) := by
  unfold request_core
  rw [if_pos ⟨h200, hallow⟩]

theorem request_core_allowed (dk : Bool) (l : List Nat) (r : HttpResp)
    (frame : List (PyKey × Bytes)) (hmem : r.status_code ∈ l)
    (hfr : decode_response dk r.content r.contentType = .ok frame) :
    request_core dk (some l) r = .ok (frame, r.status_code) := by
  have hc : statusAllowed r.status_code (some l) = true := by
    rw [statusAllowed]
    exact List.elem_iff.mpr hmem
  unfold request_core
  rw [if_neg, hfr]
  rintro ⟨-, hfalse⟩
  rw [hc] at hfalse
  cases hfalse

theorem request_core_200 (dk : Bool) (allowed : Option (List Nat)) (r : HttpResp)
    (frame : List (PyKey × Bytes)) (h200 : r.status_code = 200)
    (hfr : decode_response dk r.content r.contentType = .ok frame) :
    request_core dk allowed r = .ok (frame, r.status_code) := by
  unfold request_core
  rw [if_neg, hfr]
  rintro ⟨h, -⟩
  exact h h200

/-! ## Operation set

Each operation is parameterized by the client configuration that lives
outside `src/`: the `decode_keys` flag `dk`, the value codec
(`ev` models `client._encode_value`, `dv` models `client._decode_value`),
and the transport.  `baseUrl` models `self._prefix`
(the `http://host:port/rpc` string). -/

/-- The dict key under which `get`/`seize` read the `value` field:
the text key `value` when `self.client._decode_keys` is set, else the
byte key `value`. -/
def valueKey (dk : Bool) : PyKey :=
  if dk then .str "value" else .bs (strBytes "value")

/-- The dict key under which the bulk operations pop the `num` field. -/
def numKey (dk : Bool) : PyKey :=
  if dk then .str "num" else .bs (strBytes "num")

/-- `HttpProtocol.get`: status 450 returns the absence sentinel `none`;
otherwise the `value` field is read and decoded through the value codec
(a missing `value` field raises `KeyError`, like the Python subscript). -/
def get {V : Type} (dk : Bool) (dv : Bytes → V) (tr : Transport) (baseUrl : String)
    (key : PyStr) (db : DbArg := .pyNone) : Except PyErr (Option V) :=
  match request dk tr baseUrl "/get" (.dict [(.s "key", key)]) db (some [450]) with
  | .error e => .error e
  | .ok (resp, st) =>
    if st = 450 then .ok none
    else
      match alookup resp (valueKey dk) with
      | some v => .ok (some (dv v))
      | none => .error .keyError

/-- `HttpProtocol.seize`: same shape as `get` against `/seize`. -/
def seize {V : Type} (dk : Bool) (dv : Bytes → V) (tr : Transport) (baseUrl : String)
    (key : PyStr) (db : DbArg := .pyNone) : Except PyErr (Option V) :=
  match request dk tr baseUrl "/seize" (.dict [(.s "key", key)]) db (some [450]) with
  | .error e => .error e
  | .ok (resp, st) =>
    if st = 450 then .ok none
    else
      match alookup resp (valueKey dk) with
      | some v => .ok (some (dv v))
      | none => .error .keyError

/-- `HttpProtocol._simple_write` (the body of `set`/`add`/`replace`/
`append`): body `{key, value, [xt]}`, acceptable status 450, boolean
result `status != 450`. -/
def simple_write {V : Type} (dk : Bool) (ev : V → Bytes) (tr : Transport)
    (baseUrl cmd : String) (key : PyStr) (value : V) (db : DbArg := .pyNone)
    (expire_time : Option Int := none) : Except PyErr Bool :=
  let data := [(PyStr.s "key", key), (PyStr.s "value", PyStr.b (ev value))] ++
    (match expire_time with
     | some t => [(PyStr.s "xt", PyStr.s (toString t))]
     | none => [])
  match request dk tr baseUrl ("/" ++ cmd) (.dict data) db (some [450]) with
  | .error e => .error e
  | .ok (_, st) => .ok (decide (st ≠ 450))

/-- `HttpProtocol.remove`. -/
def remove (dk : Bool) (tr : Transport) (baseUrl : String) (key : PyStr)
    (db : DbArg := .pyNone) : Except PyErr Bool :=
  match request dk tr baseUrl "/remove" (.dict [(.s "key", key)]) db (some [450]) with
  | .error e => .error e
  | .ok (_, st) => .ok (decide (st ≠ 450))

/-- `HttpProtocol.check`. -/
def check (dk : Bool) (tr : Transport) (baseUrl : String) (key : PyStr)
    (db : DbArg := .pyNone) : Except PyErr Bool :=
  match request dk tr baseUrl "/check" (.dict [(.s "key", key)]) db (some [450]) with
  | .error e => .error e
  | .ok (_, st) => .ok (decide (st ≠ 450))

/-- The argument validation and request-body construction of
`HttpProtocol.cas`: with neither an old nor a new value, a `ValueError`
is raised before any body is built; otherwise the body holds `key`, then
`oval`/`nval` for exactly the provided sides, then the optional `xt`. -/
def cas_data {V : Type} (ev : V → Bytes) (key : PyStr) (old_val new_val : Option V)
    (expire_time : Option Int) : Except PyErr (List (PyStr × PyStr)) :=
  match old_val, new_val with
  | none, none => .error (.valueError "old value and/or new value must be specified.")
  | _, _ =>
    .ok ([(PyStr.s "key", key)] ++
      (match old_val with
       | some o => [(PyStr.s "oval", PyStr.b (ev o))]
       | none => []) ++
      (match new_val with
       | some n => [(PyStr.s "nval", PyStr.b (ev n))]
       | none => []) ++
      (match expire_time with
       | some t => [(PyStr.s "xt", PyStr.s (toString t))]
       | none => []))

/-- `HttpProtocol.cas`. -/
def cas {V : Type} (dk : Bool) (ev : V → Bytes) (tr : Transport) (baseUrl : String)
    (key : PyStr) (old_val new_val : Option V) (db : DbArg := .pyNone)
    (expire_time : Option Int := none) : Except PyErr Bool :=
  match cas_data ev key old_val new_val expire_time with
  | .error e => .error e
  | .ok data =>
    match request dk tr baseUrl "/cas" (.dict data) db (some [450]) with
    | .error e => .error e
    | .ok (_, st) => .ok (decide (st ≠ 450))

/-- The request-frame dict built by `HttpProtocol.set_bulk`: optional
`xt = str(expire_time)` first, then each data key prefixed with `_` and
each data value encoded through the value codec (dict assignments,
modelled with `dinsert`). -/
def set_bulk_accum {V : Type} (ev : V → Bytes) (data : List (String × V))
    (expire_time : Option Int) : List (PyStr × PyStr) :=
  let a0 : List (PyStr × PyStr) :=
    match expire_time with
    | some t => dinsert [] (PyStr.s "xt") (PyStr.s (toString t))
    | none => []
  data.foldl (fun a kv => dinsert a (PyStr.s ("_" ++ kv.1)) (PyStr.b (ev kv.2))) a0

/-- `HttpProtocol.set_bulk`: note that the source returns the decoded
response frame `resp` itself, not a parsed `num` count. -/
def set_bulk {V : Type} (dk : Bool) (ev : V → Bytes) (tr : Transport) (baseUrl : String)
    (data : List (String × V)) (db : DbArg := .sel "0") (expire_time : Option Int := none) :
    Except PyErr (List (PyKey × Bytes)) :=
  match request dk tr baseUrl "/set_bulk" (.dict (set_bulk_accum ev data expire_time))
      db none with
  | .error e => .error e
  | .ok (resp, _) => .ok resp

/-- `HttpProtocol.get_bulk`: pop `num` (defaulting to the byte string 0),
short-circuit to the empty dict when it equals the byte string 0, else
strip the first character of every
remaining key and decode every value through the value codec. -/
def get_bulk {V : Type} (dk : Bool) (dv : Bytes → V) (tr : Transport) (baseUrl : String)
    (keys : List PyStr) (db : DbArg := .pyNone) : Except PyErr (List (PyKey × V)) :=
  match request dk tr baseUrl "/get_bulk" (.list keys) db none with
  | .error e => .error e
  | .ok (resp, _) =>
    let n := (alookup resp (numKey dk)).getD (strBytes "0")
    let resp2 := aerase resp (numKey dk)
    if n = strBytes "0" then .ok []
    else .ok (resp2.foldl (fun a kv => dinsert a (keyTail kv.1) (dv kv.2)) [])

/-! ## Behaviour of the decoding loop -/

theorem decodeLines_cons (dk : Bool) (dec : Option ColDec) (line : Bytes)
    (rest : List Bytes) (acc : List (PyKey × Bytes)) :
    decodeLines dk dec (line :: rest) acc =
      match splitFirst 9 line with
      | none => decodeLines dk dec rest acc
      | some (k, v) =>
        match dec with
        | none => decodeLines dk dec rest (dinsert acc (mkKey dk k) v)
        | some d =>
          match applyDec d k with
          | .error e => .error e
          | .ok k2 =>
            match applyDec d v with
            | .error e => .error e
            | .ok v2 => decodeLines dk dec rest (dinsert acc (mkKey dk k2) v2) := rfl

theorem decodeLines_cons_skip (dk : Bool) (dec : Option ColDec) (line : Bytes)
    (rest : List Bytes) (acc : List (PyKey × Bytes)) (h : splitFirst 9 line = none) :
    decodeLines dk dec (line :: rest) acc = decodeLines dk dec rest acc := by
  rw [decodeLines_cons, h]

theorem decodeLines_cons_raw (dk : Bool) (line : Bytes) (rest : List Bytes)
    (acc : List (PyKey × Bytes)) (k v : Bytes) (h : splitFirst 9 line = some (k, v)) :
    decodeLines dk none (line :: rest) acc =
      decodeLines dk none rest (dinsert acc (mkKey dk k) v) := by
  rw [decodeLines_cons, h]

theorem decodeLines_cons_b64 (dk : Bool) (line : Bytes) (rest : List Bytes)
    (acc : List (PyKey × Bytes)) (k v : Bytes) (h : splitFirst 9 line = some (k, v)) :
    decodeLines dk (some .b64) (line :: rest) acc =
      decodeLines dk (some .b64) rest (dinsert acc (mkKey dk (b64decode k)) (b64decode v)) := by
  rw [decodeLines_cons, h]
  rfl

theorem decodeLines_cons_url (dk : Bool) (line : Bytes) (rest : List Bytes)
    (acc : List (PyKey × Bytes)) (k v : Bytes) (h : splitFirst 9 line = some (k, v)) :
    decodeLines dk (some .urlBroken) (line :: rest) acc = .error .typeError := by
  rw [decodeLines_cons, h]
  rfl

theorem decodeLines_b64_records :
    ∀ (data : List (Bytes × Bytes)) (acc : List (PyKey × Bytes)),
      (∀ kv ∈ data, (∀ b ∈ kv.1, b < 256) ∧ (∀ b ∈ kv.2, b < 256)) →
      decodeLines false (some .b64)
          (data.map (fun kv => b64encode kv.1 ++ 9 :: b64encode kv.2)) acc =
        .ok (data.foldl (fun a kv => dinsert a (PyKey.bs kv.1) kv.2) acc) := by
  intro data
  induction data with
  | nil => intro acc _; rfl
  | cons kv rest ih =>
    intro acc h
    have h1 := (h kv (by simp)).1
    have h2 := (h kv (by simp)).2
    have hsf : splitFirst 9 (b64encode kv.1 ++ 9 :: b64encode kv.2) =
        some (b64encode kv.1, b64encode kv.2) :=
      splitFirst_append 9 _ (b64encode kv.1) (b64encode_no_tab kv.1)
    rw [List.map_cons, decodeLines_cons_b64 false _ _ acc _ _ hsf,
      b64decode_b64encode kv.1 h1, b64decode_b64encode kv.2 h2,
      ih _ (fun x hx => h x (by simp [hx]))]
    simp [mkKey]

/-- C1 helper: the records emitted by the key-value encoder contain no
newline byte. -/
theorem record_no_newline (k v : Bytes) :
    10 ∉ b64encode k ++ 9 :: b64encode v := by
  intro hmem
  rcases List.mem_append.mp hmem with hk | hv
  · exact b64encode_no_newline k hk
  · rcases List.mem_cons.mp hv with he | hv2
    · omega
    · exact b64encode_no_newline v hv2

/-- Claim C1: for every mapping from byte-string keys to byte-string
values, encoding it with the key-value frame encoder and then decoding
the result with a content-type ending in `colenc=B` (with key-to-text
conversion disabled) reproduces the original mapping exactly, including
for the empty mapping. -/
theorem frame_roundtrip_b64 (data : List (Bytes × Bytes))
    (hbytes : ∀ kv ∈ data, (∀ b ∈ kv.1, b < 256) ∧ (∀ b ∈ kv.2, b < 256))
    (hnd : (data.map Prod.fst).Nodup)
    (ct : String) (hct : pyEndsWith ct "colenc=B" = true) :
    decode_response false
        (encode_keys_values (data.map (fun kv => (PyStr.b kv.1, PyStr.b kv.2)))) ct =
      .ok (data.map (fun kv => (PyKey.bs kv.1, kv.2))) := by
  have hdec : decode_from_content_type ct = some .b64 := by
    unfold decode_from_content_type
    rw [hct]
    rfl
  have hbody : encode_keys_values (data.map (fun kv => (PyStr.b kv.1, PyStr.b kv.2))) =
      joinSep 10 (data.map (fun kv => b64encode kv.1 ++ 9 :: b64encode kv.2)) := by
    unfold encode_keys_values
    rw [List.map_map]
    rfl
  rw [decode_response, hdec, hbody]
  match data, hbytes, hnd with
  | [], _, _ => rfl
  | kv0 :: rest, hbytes, hnd =>
    have hsplit : splitByte 10 (joinSep 10
        ((kv0 :: rest).map (fun kv => b64encode kv.1 ++ 9 :: b64encode kv.2))) =
        (kv0 :: rest).map (fun kv => b64encode kv.1 ++ 9 :: b64encode kv.2) := by
      apply splitByte_joinSep 10 _ (by simp)
      intro r hr
      rcases List.mem_map.mp hr with ⟨kv, _, rfl⟩
      exact record_no_newline kv.1 kv.2
    rw [hsplit, decodeLines_b64_records (kv0 :: rest) [] hbytes]
    congr 1
    have hfold : (kv0 :: rest).foldl (fun a kv => dinsert a (PyKey.bs kv.1) kv.2) [] =
        ((kv0 :: rest).map (fun kv => (PyKey.bs kv.1, kv.2))).foldl
          (fun a kv => dinsert a kv.1 kv.2) [] := by
      rw [List.foldl_map]
    rw [hfold, foldl_dinsert_append]
    · simp
    · simp only [List.map_nil, List.nil_append, List.map_map]
      have : ((kv0 :: rest).map (fun kv => (PyKey.bs kv.1, kv.2))).map Prod.fst =
          ((kv0 :: rest).map Prod.fst).map PyKey.bs := by
        simp [List.map_map, Function.comp]
      rw [show (Prod.fst ∘ fun kv : Bytes × Bytes => (PyKey.bs kv.1, kv.2)) =
          (PyKey.bs ∘ Prod.fst) from rfl]
      rw [← List.map_map]
      exact hnd.map (fun a b hab => by injection hab)

/-- C1 witness: a concrete two-record mapping (with a value containing tab
and newline bytes) round-trips, and so does the empty mapping. -/
theorem frame_roundtrip_b64_witness :
    decode_response false
        (encode_keys_values ((([([107], [118]), ([0, 255], [9, 10, 116])]) :
            List (Bytes × Bytes)).map (fun kv => (PyStr.b kv.1, PyStr.b kv.2))))
        "text/tab-separated-values; colenc=B" =
      .ok [(PyKey.bs [107], [118]), (PyKey.bs [0, 255], [9, 10, 116])] ∧
    decode_response false (encode_keys_values []) "text/tab-separated-values; colenc=B" =
      .ok [] := by
  constructor
  · exact frame_roundtrip_b64 [([107], [118]), ([0, 255], [9, 10, 116])]
      (by decide) (by decide) _ (by decide)
  · exact frame_roundtrip_b64 [] (by decide) (by decide) _ (by decide)

/-- Claim C2: a status that is neither 200 nor among the declared
acceptable extra statuses of the operation makes `request` raise a
protocol error carrying
the numeric status code (for example 500 on any operation); a status in
the acceptable set never raises — in particular 450 on
`get`/`seize`/`cas`/`add`/`replace`/`append`/`remove`/`check` (all of
which declare `(450,)`) yields the domain result instead of an
exception. -/
theorem request_status_policy {V : Type} (dv : Bytes → V) (ev : V → Bytes)
    (r : HttpResp) (baseUrl : String) (key : PyStr) (db : DbArg) (v0 : V) :
    (∀ (dk : Bool) (path : String) (data : FrameData) (allowed : Option (List Nat)),
      r.status_code ≠ 200 → statusAllowed r.status_code allowed = false →
      request dk (fun _ _ => r) baseUrl path data db allowed =
        .error (.protocolError ("protocol error [" ++ toString r.status_code ++ "]"))) ∧
    (∀ (dk : Bool) (path : String) (data : FrameData) (l : List Nat)
        (frame : List (PyKey × Bytes)),
      r.status_code ∈ l →
      decode_response dk r.content r.contentType = .ok frame →
      request dk (fun _ _ => r) baseUrl path data db (some l) = .ok (frame, r.status_code)) ∧
    (∀ frame : List (PyKey × Bytes), r.status_code = 450 →
      decode_response false r.content r.contentType = .ok frame →
      get false dv (fun _ _ => r) baseUrl key db = .ok none ∧
      seize false dv (fun _ _ => r) baseUrl key db = .ok none ∧
      cas false ev (fun _ _ => r) baseUrl key (some v0) none db none = .ok false ∧
      simple_write false ev (fun _ _ => r) baseUrl "set" key v0 db none = .ok false ∧
      simple_write false ev (fun _ _ => r) baseUrl "add" key v0 db none = .ok false ∧
      simple_write false ev (fun _ _ => r) baseUrl "replace" key v0 db none = .ok false ∧
      simple_write false ev (fun _ _ => r) baseUrl "append" key v0 db none = .ok false ∧
      remove false (fun _ _ => r) baseUrl key db = .ok false ∧
      check false (fun _ _ => r) baseUrl key db = .ok false) ∧
    (r.status_code = 500 →
      get false dv (fun _ _ => r) baseUrl key db =
        .error (.protocolError "protocol error [500]") ∧
      seize false dv (fun _ _ => r) baseUrl key db =
        .error (.protocolError "protocol error [500]") ∧
      cas false ev (fun _ _ => r) baseUrl key (some v0) none db none =
        .error (.protocolError "protocol error [500]") ∧
      simple_write false ev (fun _ _ => r) baseUrl "set" key v0 db none =
        .error (.protocolError "protocol error [500]") ∧
      remove false (fun _ _ => r) baseUrl key db =
        .error (.protocolError "protocol error [500]") ∧
      check false (fun _ _ => r) baseUrl key db =
        .error (.protocolError "protocol error [500]") ∧
      set_bulk false ev (fun _ _ => r) baseUrl [] db none =
        .error (.protocolError "protocol error [500]") ∧
      get_bulk false dv (fun _ _ => r) baseUrl [] db =
        .error (.protocolError "protocol error [500]")) := by
  refine ⟨?_, ?_, ?_, ?_⟩
  · intro dk path data allowed h200 hallow
    rw [request_const_tr]
    exact request_core_raise dk allowed r h200 hallow
  · intro dk path data l frame hmem hfr
    rw [request_const_tr]
    exact request_core_allowed dk l r frame hmem hfr
  · intro frame h450 hfr
    have hreq : request_core false (some [450]) r = .ok (frame, r.status_code) :=
      request_core_allowed false [450] r frame (by rw [h450]; simp) hfr
    refine ⟨?_, ?_, ?_, ?_, ?_, ?_, ?_, ?_, ?_⟩ <;>
      simp [get, seize, cas, cas_data, simple_write, remove, check,
        request_const_tr, hreq, h450]
  · intro h500
    have e450 : request_core false (some [450]) r =
        .error (.protocolError "protocol error [500]") := by
      rw [request_core_raise false (some [450]) r (by omega) (by rw [h500]; rfl), h500]
      decide
    have enone : request_core false none r =
        .error (.protocolError "protocol error [500]") := by
      rw [request_core_raise false none r (by omega) rfl, h500]
      decide
    refine ⟨?_, ?_, ?_, ?_, ?_, ?_, ?_, ?_⟩ <;>
      simp [get, seize, cas, cas_data, simple_write, remove, check, set_bulk, get_bulk,
        request_const_tr, e450, enone]

/-- C2 witness: with a concrete 450 response `get` returns the absence
sentinel and `remove` returns `false`; with a concrete 500 response `get`
raises a `ProtocolError` carrying the message `protocol error [500]`. -/
theorem request_status_policy_witness :
    get false (fun v => v) (fun _ _ => ⟨450, [], "text/tab-separated-values"⟩) "u"
      (PyStr.s "k") .pyNone = .ok none ∧
    remove false (fun _ _ => ⟨450, [], "text/tab-separated-values"⟩) "u"
      (PyStr.s "k") .pyNone = .ok false ∧
    get false (fun v => v) (fun _ _ => ⟨500, [], "text/tab-separated-values"⟩) "u"
      (PyStr.s "k") .pyNone = .error (.protocolError "protocol error [500]") := by
  refine ⟨?_, ?_, ?_⟩
  · exact ((request_status_policy (fun v => v) (fun v => v)
      ⟨450, [], "text/tab-separated-values"⟩ "u" (PyStr.s "k") .pyNone []).2.2.1
      [] rfl (by decide)).1
  · exact ((request_status_policy (fun v => v) (fun v => v)
      ⟨450, [], "text/tab-separated-values"⟩ "u" (PyStr.s "k") .pyNone []).2.2.1
      [] rfl (by decide)).2.2.2.2.2.2.2.1
  · exact ((request_status_policy (fun v => v) (fun v => v)
      ⟨500, [], "text/tab-separated-values"⟩ "u" (PyStr.s "k") .pyNone []).2.2.2
      rfl).1

/-- Claim C3 (code-bug evaluation): `set_bulk` returns the decoded
response frame itself.  For a server response whose frame is
`{num: b"3"}` (status 200, base64 content-type) the call returns that
mapping — not the integer `3` that the spec and the own test of the
repository (`tests.py`, `assertEqual(nkeys, 3)`) expect, and not the
popped-`num`
parse that the sibling `remove_bulk` performs. -/
theorem set_bulk_returns_frame :
    set_bulk false (fun v : Bytes => v)
      (fun _ _ => ⟨200, encode_keys_values [(.b (strBytes "num"), .b (strBytes "3"))],
        "text/tab-separated-values; colenc=B"⟩) "u"
      [("k1", [118]), ("k2", [119]), ("k3", [120])] (.sel "0") none =
      .ok [(PyKey.bs (strBytes "num"), strBytes "3")] := by
  decide

/-- Claim C4 counterexample: with the database selector absent (the
`db=None` default of every protocol operation — e.g. `report`, which
calls `request` with path `/report` and db `None`), `_post` still appends
a DB query
parameter: the path becomes `/report?DB=None` instead of staying
`/report`. -/
theorem post_path_none_counterexample :
    post_path "/report" DbArg.pyNone = "/report?DB=None" ∧
    post_path "/report" DbArg.pyNone ≠ "/report" := by
  decide

/-- Claim C4 amended: `_post` appends `?DB=<db>` for every `db` value
other than the explicit no-database marker `False` (`db is not False`);
a selector `s` yields `?DB=s`, the Python-default `None` is serialized as
`?DB=None`, and only `db=False` leaves the path unchanged. -/
theorem post_path_db_cases (path t : String) :
    post_path path DbArg.noDb = path ∧
    post_path path (DbArg.sel t) = path ++ "?DB=" ++ t ∧
    post_path path DbArg.pyNone = path ++ "?DB=None" := by
  refine ⟨?_, ?_, ?_⟩ <;> simp [post_path, dbStr, String.append_assoc]

/-- Claim C5: `cas` with both the old and the new value absent raises
a `ValueError` carrying the message that an old value and/or a new value
must be specified, and it does so for every
transport — the result does not depend on the transport, and `cas_data`
shows the error is produced before any request body exists; with at least
one side provided, the body contains `oval`/`nval` exactly for the
provided side(s), after `key` and before the optional `xt`. -/
theorem cas_usage_and_body {V : Type} (ev : V → Bytes) (key : PyStr) (db : DbArg)
    (xt : Option Int) (dk : Bool) (baseUrl : String) :
    (∀ tr : Transport, cas dk ev tr baseUrl key none none db xt =
      .error (.valueError "old value and/or new value must be specified.")) ∧
    cas_data ev key (none : Option V) none xt =
      .error (.valueError "old value and/or new value must be specified.") ∧
    (∀ o : V, cas_data ev key (some o) none xt =
      .ok ([(PyStr.s "key", key), (PyStr.s "oval", PyStr.b (ev o))] ++
        (match xt with
         | some t => [(PyStr.s "xt", PyStr.s (toString t))]
         | none => []))) ∧
    (∀ n : V, cas_data ev key none (some n) xt =
      .ok ([(PyStr.s "key", key), (PyStr.s "nval", PyStr.b (ev n))] ++
        (match xt with
         | some t => [(PyStr.s "xt", PyStr.s (toString t))]
         | none => []))) ∧
    (∀ o n : V, cas_data ev key (some o) (some n) xt =
      .ok ([(PyStr.s "key", key), (PyStr.s "oval", PyStr.b (ev o)),
          (PyStr.s "nval", PyStr.b (ev n))] ++
        (match xt with
         | some t => [(PyStr.s "xt", PyStr.s (toString t))]
         | none => []))) :=
  ⟨fun _ => rfl, rfl, fun _ => rfl, fun _ => rfl, fun _ _ => rfl⟩

/-- Claim C6: `get_bulk` pops the `num` field out of the decoded response
frame before building the result; when the popped value (defaulting to
the byte string 0) equals the byte string 0 it returns the empty mapping
without processing any remaining field; otherwise every remaining key has
its first character stripped and every value goes through the decode of
the value codec. -/
theorem get_bulk_num_semantics {V : Type} (dk : Bool) (dv : Bytes → V) (tr : Transport)
    (baseUrl : String) (keys : List PyStr) (db : DbArg) (resp : List (PyKey × Bytes))
    (st : Nat)
    (hreq : request dk tr baseUrl "/get_bulk" (.list keys) db none = .ok (resp, st)) :
    ((alookup resp (numKey dk)).getD (strBytes "0") = strBytes "0" →
      get_bulk dk dv tr baseUrl keys db = .ok []) ∧
    (∀ n, alookup resp (numKey dk) = some n → n ≠ strBytes "0" →
      ((aerase resp (numKey dk)).map (fun kv => keyTail kv.1)).Nodup →
      get_bulk dk dv tr baseUrl keys db =
        .ok ((aerase resp (numKey dk)).map (fun kv => (keyTail kv.1, dv kv.2)))) := by
  constructor
  · intro hn
    simp only [get_bulk, hreq]
    rw [if_pos hn]
  · intro n hn hne hnd
    simp only [get_bulk, hreq, hn, Option.getD_some]
    rw [if_neg hne]
    congr 1
    rw [← List.foldl_map (fun kv : PyKey × Bytes => (keyTail kv.1, dv kv.2))
      (fun a kv => dinsert a kv.1 kv.2)]
    rw [foldl_dinsert_append _ []]
    · rw [List.nil_append]
    · rw [List.map_nil, List.nil_append, List.map_map]
      exact hnd

/-- C6 witness: a concrete response frame `{num: b"1", _k: b"v"}` yields
`{k: v}`, and a concrete frame `{num: b"0", _j: b"w"}` short-circuits to
the empty mapping despite the extra field. -/
theorem get_bulk_num_semantics_witness :
    get_bulk false (fun v => v)
      (fun _ _ => ⟨200,
        encode_keys_values [(.b (strBytes "num"), .b [49]), (.b [95, 107], .b [118])],
        "text/tab-separated-values; colenc=B"⟩) "u" [PyStr.b [107]] .pyNone =
      .ok [(PyKey.bs [107], [118])] ∧
    get_bulk false (fun v => v)
      (fun _ _ => ⟨200,
        encode_keys_values [(.b (strBytes "num"), .b [48]), (.b [95, 106], .b [119])],
        "text/tab-separated-values; colenc=B"⟩) "u" [PyStr.b [106]] .pyNone =
      .ok [] := by
  constructor
  · have h := (get_bulk_num_semantics false (fun v => v)
      (fun _ _ => ⟨200,
        encode_keys_values [(.b (strBytes "num"), .b [49]), (.b [95, 107], .b [118])],
        "text/tab-separated-values; colenc=B"⟩) "u" [PyStr.b [107]] .pyNone
      [(PyKey.bs (strBytes "num"), [49]), (PyKey.bs [95, 107], [118])] 200
      (by decide)).2 [49] (by decide) (by decide) (by decide)
    exact h.trans (by decide)
  · exact (get_bulk_num_semantics false (fun v => v)
      (fun _ _ => ⟨200,
        encode_keys_values [(.b (strBytes "num"), .b [48]), (.b [95, 106], .b [119])],
        "text/tab-separated-values; colenc=B"⟩) "u" [PyStr.b [106]] .pyNone
      [(PyKey.bs (strBytes "num"), [48]), (PyKey.bs [95, 106], [119])] 200
      (by decide)).1 (by decide)

/-- Claim C7: `get` with a 450 response returns the absence sentinel and
does not raise; with a 200 response it returns the `value` field of the
decoded frame passed through the decode of the value codec. -/
theorem get_status_semantics {V : Type} (dk : Bool) (dv : Bytes → V) (tr : Transport)
    (baseUrl : String) (key : PyStr) (db : DbArg) (resp : List (PyKey × Bytes)) (st : Nat)
    (hreq : request dk tr baseUrl "/get" (.dict [(.s "key", key)]) db (some [450]) =
      .ok (resp, st)) :
    (st = 450 → get dk dv tr baseUrl key db = .ok none) ∧
    (st = 200 → ∀ v, alookup resp (valueKey dk) = some v →
      get dk dv tr baseUrl key db = .ok (some (dv v))) := by
  constructor
  · intro h450
    simp only [get, hreq]
    rw [if_pos h450]
  · intro h200 v hv
    simp only [get, hreq]
    rw [if_neg (by omega), hv]

/-- C7 witness: a concrete 450 response gives `.ok none`; a concrete 200
response whose frame holds `value: b"w"` gives the decoded value. -/
theorem get_status_semantics_witness :
    get false (fun v => v) (fun _ _ => ⟨450, [], "text/plain"⟩) "base"
      (PyStr.s "k7") .pyNone = .ok none ∧
    get false (fun v => v)
      (fun _ _ => ⟨200, encode_keys_values [(.b (strBytes "value"), .b [119])],
        "text/tab-separated-values; colenc=B"⟩) "base" (PyStr.s "k7") .pyNone =
      .ok (some [119]) := by
  constructor
  · exact (get_status_semantics false (fun v => v)
      (fun _ _ => ⟨450, [], "text/plain"⟩) "base" (PyStr.s "k7") .pyNone [] 450
      (by decide)).1 rfl
  · exact (get_status_semantics false (fun v => v)
      (fun _ _ => ⟨200, encode_keys_values [(.b (strBytes "value"), .b [119])],
        "text/tab-separated-values; colenc=B"⟩) "base" (PyStr.s "k7") .pyNone
      [(PyKey.bs (strBytes "value"), [119])] 200 (by decide)).2 rfl [119] (by decide)

theorem decodeLines_raw_foldl (dk : Bool) :
    ∀ (lines : List Bytes) (acc : List (PyKey × Bytes)),
      decodeLines dk none lines acc =
        .ok (lines.foldl (fun a line =>
          match splitFirst 9 line with
          | none => a
          | some (k, v) => dinsert a (mkKey dk k) v) acc) := by
  intro lines
  induction lines with
  | nil => intro acc; rfl
  | cons line rest ih =>
    intro acc
    cases hsf : splitFirst 9 line with
    | none =>
      rw [decodeLines_cons_skip _ _ _ _ _ hsf, ih, List.foldl_cons, hsf]
    | some kv =>
      obtain ⟨k, v⟩ := kv
      rw [decodeLines_cons_raw _ _ _ _ _ _ hsf, ih, List.foldl_cons, hsf]

/-- Claim C8 (code-bug evaluation): response decoding splits the body on
newlines, splits each record on the first tab only, silently skips
records without a tab, and selects the field decoder from the
content-type: base64 for `colenc=B` and the URL-unescaper for
`colenc=U` — but the latter is the broken
`partial` of `unquote_to_bytes` with the unsupported `safe` keyword, so
decoding any `colenc=U` record
raises `TypeError` instead of URL-unescaping; with no recognized suffix
fields are kept as raw bytes.  A body with one well-formed record and one
tab-less record decodes to a mapping with only the well-formed record. -/
theorem decode_response_semantics :
    (∀ ct : String, pyEndsWith ct "colenc=B" = true →
      decode_from_content_type ct = some ColDec.b64) ∧
    (∀ ct : String, pyEndsWith ct "colenc=B" = false → pyEndsWith ct "colenc=U" = true →
      decode_from_content_type ct = some ColDec.urlBroken) ∧
    (∀ ct : String, pyEndsWith ct "colenc=B" = false → pyEndsWith ct "colenc=U" = false →
      decode_from_content_type ct = none) ∧
    (∀ (tsv : Bytes) (ct : String), decode_from_content_type ct = none →
      decode_response false tsv ct =
        .ok ((splitByte 10 tsv).foldl (fun a line =>
          match splitFirst 9 line with
          | none => a
          | some (k, v) => dinsert a (PyKey.bs k) v) [])) ∧
    (decode_response false
        (b64encode [107] ++ 9 :: b64encode [118] ++ 10 :: strBytes "junk")
        "text/tab-separated-values; colenc=B" = .ok [(PyKey.bs [107], [118])]) ∧
    (decode_response false [97, 9, 98] "text/tab-separated-values; colenc=U" =
      .error .typeError) := by
  refine ⟨?_, ?_, ?_, ?_, ?_, ?_⟩
  · intro ct h
    simp [decode_from_content_type, h]
  · intro ct hb hu
    simp [decode_from_content_type, hb, hu]
  · intro ct hb hu
    simp [decode_from_content_type, hb, hu]
  · intro tsv ct h
    unfold decode_response
    rw [h, decodeLines_raw_foldl]
    rfl
  · decide
  · decide

/-- C8 witness: concrete instances — a content-type with no recognized
suffix selects no decoder, and the raw decode of a two-line body with one
tab-less line keeps only the well-formed record. -/
theorem decode_response_semantics_witness :
    decode_from_content_type "application/octet-stream" = none ∧
    decode_response false [107, 9, 118, 10, 106, 117] "application/octet-stream" =
      .ok [(PyKey.bs [107], [118])] := by
  constructor
  · exact decode_response_semantics.2.2.1 "application/octet-stream" (by decide) (by decide)
  · have h := decode_response_semantics.2.2.2.1 [107, 9, 118, 10, 106, 117]
      "application/octet-stream"
      (decode_response_semantics.2.2.1 "application/octet-stream" (by decide) (by decide))
    exact h.trans (by decide)

/-- Claim C9: the bulk-key frame encoder produces, for each key, the
record `base64(underscore byte ++ key bytes)` followed by a single tab
and an empty value field, records joined by single newlines. -/
theorem encode_keys_shape (keys : List PyStr) :
    encode_keys keys =
      List.intercalate [10] (keys.map (fun k => b64encode (95 :: pyEncode k) ++ [9])) := by
  rw [encode_keys, joinSep_eq_intercalate]

theorem underscored_string_injective :
    Function.Injective (fun k : String => PyStr.s ("_" ++ k)) := by
  intro a b h
  injection h with he
  have h2 : ("_" ++ a).data = ("_" ++ b).data := congrArg String.data he
  rw [String.data_append, String.data_append] at h2
  exact String.ext (List.append_cancel_left h2)

theorem xt_not_underscored (l : List String) :
    PyStr.s "xt" ∉ l.map (fun k => PyStr.s ("_" ++ k)) := by
  intro hmem
  obtain ⟨k, -, heq⟩ := List.mem_map.mp hmem
  injection heq with he
  have h2 : ("xt").data.head? = some '_' := by
    rw [← he, String.data_append]
    rfl
  exact absurd h2 (by decide)

/-- Claim C10: with an expire time, `set_bulk` places `xt` in the request
frame without an underscore prefix and with the plain decimal text of
`expire_time` as its value (not value-codec-encoded), while every data
key is underscore-prefixed and every data value goes through the value
codec; the frame records follow. -/
theorem set_bulk_frame_shape {V : Type} (ev : V → Bytes) (data : List (String × V))
    (t : Int) (hnd : (data.map Prod.fst).Nodup) :
    set_bulk_accum ev data (some t) =
      (PyStr.s "xt", PyStr.s (toString t)) ::
        data.map (fun kv => (PyStr.s ("_" ++ kv.1), PyStr.b (ev kv.2))) ∧
    encode_keys_values (set_bulk_accum ev data (some t)) =
      joinSep 10 ((b64encode (strBytes "xt") ++ 9 :: b64encode (strBytes (toString t))) ::
        data.map (fun kv => b64encode (strBytes ("_" ++ kv.1)) ++ 9 :: b64encode (ev kv.2))) := by
  have hkeys : ((data.map (fun kv => (PyStr.s ("_" ++ kv.1), PyStr.b (ev kv.2)))).map
      Prod.fst) = (data.map Prod.fst).map (fun k => PyStr.s ("_" ++ k)) := by
    rw [List.map_map, List.map_map]
    rfl
  have hnd2 : (([(PyStr.s "xt", PyStr.s (toString t))].map Prod.fst) ++
      (data.map (fun kv => (PyStr.s ("_" ++ kv.1), PyStr.b (ev kv.2)))).map Prod.fst).Nodup := by
    rw [hkeys]
    show (PyStr.s "xt" :: (data.map Prod.fst).map (fun k => PyStr.s ("_" ++ k))).Nodup
    rw [List.nodup_cons]
    exact ⟨xt_not_underscored (data.map Prod.fst), hnd.map underscored_string_injective⟩
  have h1 : set_bulk_accum ev data (some t) =
      (PyStr.s "xt", PyStr.s (toString t)) ::
        data.map (fun kv => (PyStr.s ("_" ++ kv.1), PyStr.b (ev kv.2))) := by
    show data.foldl (fun a kv => dinsert a (PyStr.s ("_" ++ kv.1)) (PyStr.b (ev kv.2)))
      [(PyStr.s "xt", PyStr.s (toString t))] =
        (PyStr.s "xt", PyStr.s (toString t)) ::
          data.map (fun kv => (PyStr.s ("_" ++ kv.1), PyStr.b (ev kv.2)))
    rw [← List.foldl_map (fun kv : String × V => (PyStr.s ("_" ++ kv.1), PyStr.b (ev kv.2)))
      (fun a kv => dinsert a kv.1 kv.2)]
    rw [foldl_dinsert_append _ _ hnd2]
    rfl
  refine ⟨h1, ?_⟩
  rw [h1]
  unfold encode_keys_values
  rw [List.map_cons, List.map_map]
  rfl

/-- C10 witness: a concrete two-record bulk write with `expire_time = 5`
and a codec that prefixes byte 120 — `xt` keeps the plain decimal text
`"5"` while both data values are codec-encoded and both data keys carry
the underscore prefix. -/
theorem set_bulk_frame_shape_witness :
    set_bulk_accum (fun v : Bytes => 120 :: v) [("k1", [5]), ("k2", [6])] (some 5) =
      [(PyStr.s "xt", PyStr.s "5"), (PyStr.s "_k1", PyStr.b [120, 5]),
        (PyStr.s "_k2", PyStr.b [120, 6])] := by
  have h := (set_bulk_frame_shape (fun v : Bytes => 120 :: v)
    [("k1", [5]), ("k2", [6])] 5 (by decide)).1
  exact h.trans (by decide)

end Kt
